import Mathlib

/-!
# Verification of the path-addressable JSON document store

Shallow embedding of `src/logic/store.ts` (`JsonStore`): the JSON value
model, path resolution, the CRUD/move operations, the bounded undo
history and the subscriber list, together with theorems settling the
spec's claims about them.

Modelling conventions (JavaScript semantics made explicit):
* JS strings are Lean `String`s; string scanning (`trim`, `startsWith`,
  `slice`) is done on the underlying `List Char`.
* JS numbers are modelled on their exact-integer fragment as `Int`
  (floating point is outside the embedding); `Number(s)` is modelled as
  signed decimal-integer parsing, so non-integer numerals coerce to
  strings in the model.
* `undefined` is `Option.none` at the places where the store can read a
  missing property; the JSON value `null` is `JsonValue.null`, which is
  also the "no document loaded" state, exactly as in the source where
  `data : JsonValue | null` conflates the two.
* A thrown JS exception is `JsResult.err e st` carrying the store as it
  is at the moment of the throw (mutations performed before the throw,
  such as the history push, are visible in `st`).
* JS objects keep own integer-like keys first in ascending numeric
  order, then string keys in insertion order; `objSet` maintains that
  invariant, so object field lists model JS property order faithfully.
* `JSON.stringify`/`JSON.parse` round-trips are the identity on
  `JsonValue`, so history snapshots are stored structurally.
* Listener functions are compared by reference in the source
  (`l !== listener`); listener identity is modelled as `Nat`.
* `notify()` calls every registered listener; the observable effect is
  recorded as the `notifyCount` field of the store.
* Property dispatch through the prototype chain is modelled where the
  store's behavior depends on it: an object owning a `"hasOwnProperty"`
  member shadows the method and makes the source's guards throw
  `TypeError`; assigning `"__proto__"` to an object without an own
  member of that name hits the inherited setter and creates no member.
  A *read* of an absent key that names an inherited `Object.prototype`
  member (`objProtoKeys`) yields a host function outside the JSON
  universe; such reads are outside the modelled fragment, and the one
  theorem whose conclusion depends on them (C4's undefined-read
  conjunct) excludes those key names by hypothesis.
-/

/-- JSON values, as in `type JsonValue` of the source. Numbers are
modelled on their integer fragment. -/
inductive JsonValue where
  | str (s : String)
  | num (n : Int)
  | bool (b : Bool)
  | null
  | arr (xs : List JsonValue)
  | obj (fields : List (String × JsonValue))

/-- One path segment: an object key (JS string) or array index (JS
number, integer fragment), as in `type JsonPath = (string | number)[]`. -/
inductive Seg where
  | key (s : String)
  | idx (n : Int)
deriving DecidableEq, Repr

/-- Drag-and-drop position argument of `moveNode`. -/
inductive MvPos where
  | before
  | after
  | inside
deriving DecidableEq, Repr

/-- Errors a store operation can surface: `throw new Error(msg)` in the
source is `error msg`; a JS runtime `TypeError` (property access or
assignment on `null`/`undefined`, strict-mode assignment to a primitive)
is `typeError`; a `JSON.parse` failure is `syntaxError`. -/
inductive JsErr where
  | typeError
  | syntaxError
  | error (msg : String)
deriving DecidableEq, Repr

/-- The member names every plain object inherits from
`Object.prototype`. Reading one of these on an object with no own
member of that name yields the inherited function (or, for
`"__proto__"`, the prototype object) — host values outside the JSON
universe — so theorems that conclude `undefined` for an absent key
carry the hypothesis that the key is not in this list. -/
def objProtoKeys : List String :=
  ["constructor", "hasOwnProperty", "isPrototypeOf",
   "propertyIsEnumerable", "toLocaleString", "toString", "valueOf",
   "__proto__", "__defineGetter__", "__defineSetter__",
   "__lookupGetter__", "__lookupSetter__"]

/-- First-match association lookup on object fields: the **own**-key
fragment of the JS property read (an absent own key that names an
inherited `Object.prototype` member — see `objProtoKeys` — produces a
host function in the real program; such reads are outside the modelled
fragment and excluded by hypothesis where a theorem's conclusion
depends on them). -/
def lookupStr : List (String × JsonValue) → String → Option JsonValue
  | [], _ => none
  | (k, v) :: rest, s => if k = s then some v else lookupStr rest s

/-- Does the object own property `s`? This is the value of the call
`obj.hasOwnProperty(s)` when the method is the inherited one; a
document that **owns** a `"hasOwnProperty"` member shadows the method
with a non-callable JSON value and makes the real call throw
`TypeError` — the operation functions below model that throw
explicitly before using this test. -/
def hasKey (fs : List (String × JsonValue)) (s : String) : Bool :=
  (lookupStr fs s).isSome

/-- All-decimal-digits parse of a character list (no sign). -/
def digitsToNat : List Char → Option Nat
  | [] => none
  | cs => go cs 0
where
  go : List Char → Nat → Option Nat
    | [], acc => some acc
    | c :: rest, acc =>
        if c.isDigit then go rest (acc * 10 + (c.toNat - '0'.toNat)) else none

/-- The integer fragment of JS `Number(string)` on an already-trimmed
string: optional sign followed by decimal digits; `none` models `NaN`. -/
def jsNumber (cs : List Char) : Option Int :=
  match cs with
  | '-' :: rest => (digitsToNat rest).map (fun n => -(n : Int))
  | '+' :: rest => (digitsToNat rest).map (fun n => (n : Int))
  | _ => (digitsToNat cs).map (fun n => (n : Int))

/-- Canonical array-index property name: the decimal numeral of some
`n < 2^32 - 1` with no leading zeros or sign (JS integer-like key). -/
def canonIdx? (s : String) : Option Nat :=
  match digitsToNat s.data with
  | some n => if Nat.repr n = s ∧ n < 4294967295 then some n else none
  | none => none

/-- JS `String(segment)`: the key itself, or the decimal numeral of the
index. -/
def segKeyStr : Seg → String
  | .key s => s
  | .idx n => toString n

/-- Strict equality `k === seg` between a JS string and a path segment
(a number segment is never strictly equal to a string). -/
def segStrEq (k : String) : Option Seg → Bool
  | some (.key s) => k == s
  | _ => false

/-- Strict comparison `value === null` of the source. -/
def isNullV : JsonValue → Bool
  | .null => true
  | _ => false

/-- JS truthiness test used by `if (!this.data) return;`. -/
def isFalsy : JsonValue → Bool
  | .null => true
  | .bool b => !b
  | .num n => n == 0
  | .str s => s == ""
  | .arr _ => false
  | .obj _ => false

/-- Insert a brand-new integer-like key at its JS property position:
after all smaller integer-like keys, before everything else. -/
def insertIntKey (n : Nat) (k : String) (v : JsonValue) :
    List (String × JsonValue) → List (String × JsonValue)
  | [] => [(k, v)]
  | (k', v') :: rest =>
      match canonIdx? k' with
      | some m =>
          if m < n then (k', v') :: insertIntKey n k v rest
          else (k, v) :: (k', v') :: rest
      | none => (k, v) :: (k', v') :: rest

/-- JS property write `obj[k] = v` on an object: update in place when
the key is an own member; otherwise, for `k = "__proto__"`, the
assignment dispatches to the inherited `Object.prototype` setter and
**creates no member** (the prototype switch itself carries no JSON
value and is not further modelled); any other new key is inserted at
the position JS gives a new own property (integer-like keys first in
numeric order, then insertion order). -/
def objSet (fs : List (String × JsonValue)) (k : String) (v : JsonValue) :
    List (String × JsonValue) :=
  if hasKey fs k then
    fs.map (fun kv => if kv.1 = k then (k, v) else kv)
  else if k = "__proto__" then fs
  else
    match canonIdx? k with
    | some n => insertIntKey n k v fs
    | none => fs ++ [(k, v)]

/-- JS `delete obj[k]` on an object. -/
def objDel (fs : List (String × JsonValue)) (k : String) :
    List (String × JsonValue) :=
  fs.filter (fun kv => kv.1 ≠ k)

/-- Array element read through a segment, with JS key coercion:
a numeric index in range, the canonical numeral of one, or `"length"`. -/
def arrGet (xs : List JsonValue) : Seg → Option JsonValue
  | .idx n => if 0 ≤ n then xs.get? n.toNat else none
  | .key s =>
      if s = "length" then some (.num xs.length)
      else
        match canonIdx? s with
        | some n => xs.get? n
        | none => none

/-- Own properties of a string primitive: character indices and
`"length"`. -/
def strHasOwn (s : String) (k : String) : Bool :=
  k == "length" ||
    (match canonIdx? k with
     | some n => decide (n < s.length)
     | none => false)

/-- String property read through a segment (JS `"abc"[1] = "b"`,
`"abc".length = 3`). -/
def strGet (s : String) : Seg → Option JsonValue
  | .idx n =>
      if 0 ≤ n then (s.data.get? n.toNat).map (fun c => .str (String.mk [c]))
      else none
  | .key k =>
      if k = "length" then some (.num s.length)
      else
        match canonIdx? k with
        | some n => (s.data.get? n).map (fun c => .str (String.mk [c]))
        | none => none

/-- One JS property read `target[seg]`: `TypeError` on `null`/`undefined`,
`undefined` (`none`) for missing members and all members of numbers and
booleans. -/
def jsGet : Option JsonValue → Seg → Except JsErr (Option JsonValue)
  | none, _ => .error .typeError
  | some .null, _ => .error .typeError
  | some (.obj fs), seg => .ok (lookupStr fs (segKeyStr seg))
  | some (.arr xs), seg => .ok (arrGet xs seg)
  | some (.str s), seg => .ok (strGet s seg)
  | some (.num _), _ => .ok none
  | some (.bool _), _ => .ok none

/-- Descend a whole path one segment at a time, as the loop in
`getAt`. -/
def getAtGo : Option JsonValue → List Seg → Except JsErr (Option JsonValue)
  | t, [] => .ok t
  | t, seg :: rest =>
      match jsGet t seg with
      | .error e => .error e
      | .ok c => getAtGo c rest

/-- In-place property write seen functionally: the container `t` with
the member at `seg` (known to exist, it was just read) replaced by `c`.
Primitives are returned unchanged (a write through a copied primitive
never propagates, and every such write throws before reaching here). -/
def writeBack : Option JsonValue → Seg → JsonValue → Option JsonValue
  | some (.obj fs), seg, c =>
      some (.obj (fs.map (fun kv => if kv.1 = segKeyStr seg then (kv.1, c) else kv)))
  | some (.arr xs), seg, c =>
      match seg with
      | .idx n =>
          if 0 ≤ n ∧ n.toNat < xs.length then some (.arr (xs.set n.toNat c))
          else some (.arr xs)
      | .key s =>
          match canonIdx? s with
          | some n => if n < xs.length then some (.arr (xs.set n c)) else some (.arr xs)
          | none => some (.arr xs)
  | t, _, _ => t

/-- Resolve `path` against `t` and run the mutation `f` on the node it
reaches (the source pattern `const target = this.getAt(p); mutate
target in place`). `f` returns `none` when JS performed no assignment,
`some v` when the target node is now `v`; the result is `t` updated
accordingly. Errors are the JS exceptions of the resolution or of `f`
itself. -/
def modifyAt : Option JsonValue → List Seg →
    (Option JsonValue → Except JsErr (Option JsonValue)) →
    Except JsErr (Option JsonValue)
  | t, [], f => f t
  | t, seg :: rest, f =>
      match jsGet t seg with
      | .error e => .error e
      | .ok c =>
          match modifyAt c rest f with
          | .error e => .error e
          | .ok none => .ok none
          | .ok (some c') => .ok (writeBack t seg c')

/-- The value of `t` after writing `v` over the node `path` reaches
(the successful-write result of `modifyAt`, as a total function). -/
def setPath : Option JsonValue → List Seg → JsonValue → Option JsonValue
  | _, [], v => some v
  | t, seg :: rest, v =>
      match jsGet t seg with
      | .error _ => t
      | .ok c =>
          match setPath c rest v with
          | some c' => writeBack t seg c'
          | none => t

/-- The bound `private maxHistory = 50` of the source. -/
def maxHistory : Nat := 50

/-- The `JsonStore` state: current document (`JsonValue.null` doubles as
the unloaded state, as in the source), subscribed listener identities,
undo snapshots (oldest first), and the number of `notify()` calls made
so far. -/
structure JsonStore where
  data : JsonValue
  listeners : List Nat
  history : List JsonValue
  notifyCount : Nat

/-- Outcome of a store operation: normal return, or a thrown JS
exception together with the store as the throw leaves it. -/
inductive JsResult where
  | ok (st : JsonStore)
  | err (e : JsErr) (st : JsonStore)

/-- The store an operation leaves behind, thrown or not. -/
def JsResult.store : JsResult → JsonStore
  | .ok st => st
  | .err _ st => st

/-- `new JsonStore(initialData)` with no subscribers yet. -/
def mkStore (d : JsonValue) : JsonStore :=
  { data := d, listeners := [], history := [], notifyCount := 0 }

/-- `history.push(snapshot)` followed by the overflow `shift()`:
append, and drop the oldest entry when the bound is exceeded. -/
def capPush (h : List JsonValue) (d : JsonValue) : List JsonValue :=
  if (h ++ [d]).length > maxHistory then (h ++ [d]).tail else h ++ [d]

/-- `pushHistory()`: snapshot the current document unless none is
loaded (`this.data !== null`). -/
def pushHistory (st : JsonStore) : JsonStore :=
  if isNullV st.data then st
  else { st with history := capPush st.history st.data }

/-- `undo()`: pop the most recent snapshot into the document; reports
whether anything was undone. -/
def undo (st : JsonStore) : JsonStore × Bool :=
  match st.history.getLast? with
  | none => (st, false)
  | some prev =>
      ({ st with data := prev, history := st.history.dropLast,
                 notifyCount := st.notifyCount + 1 }, true)

/-- `set(data)` with the default `saveHistory = true`: snapshot the
prior document if one existed, replace wholesale, notify. -/
def JsonStore.set (st : JsonStore) (d : JsonValue) : JsonStore :=
  let st1 := if !isNullV st.data then pushHistory st else st
  { st1 with data := d, notifyCount := st1.notifyCount + 1 }

/-- `subscribe(listener)`: append to the listener list. -/
def subscribe (st : JsonStore) (l : Nat) : JsonStore :=
  { st with listeners := st.listeners ++ [l] }

/-- The closure returned by `subscribe`: filter out every registration
strictly equal to the captured listener
(`this.listeners = this.listeners.filter(l => l !== listener)`). -/
def unsubscribe (l : Nat) (st : JsonStore) : JsonStore :=
  { st with listeners := st.listeners.filter (fun x => x != l) }

/-- The listeners `notify()` invokes, in invocation order. -/
def notifyTargets (st : JsonStore) : List Nat :=
  st.listeners

/-- `getAt(path)`: pure resolution from the document root. -/
def getAt (st : JsonStore) (path : List Seg) : Except JsErr (Option JsonValue) :=
  getAtGo (some st.data) path

/-! ## Raw-input coercion (`updateValue` / `addNode` normalization) -/

/-- JS `value.trim()` on the underlying characters. -/
def trimChars (cs : List Char) : List Char :=
  ((cs.dropWhile Char.isWhitespace).reverse.dropWhile Char.isWhitespace).reverse

/-- The type normalization block of `updateValue`, line for line:
quote-stripped string, `true`/`false`, `null`, number, else the original
string unchanged. -/
def normalizeUpdate (value : String) : JsonValue :=
  let sv := trimChars value.data
  if sv.head? = some '"' ∧ sv.getLast? = some '"' then
    .str (String.mk ((sv.drop 1).dropLast))
  else if String.mk sv = "true" then .bool true
  else if String.mk sv = "false" then .bool false
  else if String.mk sv = "null" then .null
  else if (jsNumber sv).isSome ∧ sv ≠ [] then .num ((jsNumber sv).getD 0)
  else .str value

/-- The (textually duplicated) normalization block of `addNode`. -/
def normalizeAdd (value : String) : JsonValue :=
  let sv := trimChars value.data
  if sv.head? = some '"' ∧ sv.getLast? = some '"' then
    .str (String.mk ((sv.drop 1).dropLast))
  else if String.mk sv = "true" then .bool true
  else if String.mk sv = "false" then .bool false
  else if String.mk sv = "null" then .null
  else if (jsNumber sv).isSome ∧ sv ≠ [] then .num ((jsNumber sv).getD 0)
  else .str value

/-- Modelled from the spec, §4.1.1: the five-step coercion priority
order in the spec's own words, for comparison with the source blocks. -/
def coercionSpec (raw : String) : JsonValue :=
  let t := trimChars raw.data
  if t.head? = some '"' ∧ t.getLast? = some '"' then
    .str (String.mk ((t.drop 1).dropLast))
  else if String.mk t = "true" then .bool true
  else if String.mk t = "false" then .bool false
  else if String.mk t = "null" then .null
  else if t ≠ [] ∧ (jsNumber t).isSome then .num ((jsNumber t).getD 0)
  else .str raw

/-! ## The CRUD operations -/

/-- Number coercion of a segment (`ToNumber` in array-index positions):
an index is itself, a string key parses as a number or is `NaN`
(`none`). -/
def segToNumber : Seg → Option Int
  | .idx n => some n
  | .key s => jsNumber s.data

/-- `Array.prototype.splice` start-argument clamping
(`ToIntegerOrInfinity` then clamp to `[0, len]`; `NaN` becomes 0). -/
def spliceStart (i? : Option Int) (len : Nat) : Nat :=
  match i? with
  | none => 0
  | some i =>
      if i < 0 then
        (if (len : Int) + i < 0 then 0 else ((len : Int) + i).toNat)
      else min i.toNat len

/-- `xs.splice(start, 1)`: remove at most one element at `start`. -/
def arrRemoveAt (xs : List JsonValue) (start : Nat) : List JsonValue :=
  xs.take start ++ xs.drop (start + 1)

/-- `xs.splice(start, 0, v)`: insert `v` at `start` (already clamped). -/
def arrInsertAt (xs : List JsonValue) (start : Nat) (v : JsonValue) : List JsonValue :=
  xs.take start ++ v :: xs.drop start

/-- Strict-mode JS assignment `target[key] = v`, `key` possibly the
`undefined` read `path[-1]` (property name `"undefined"`): `TypeError`
on `null`/`undefined`/primitives; objects update or insert; arrays
update, append, pad with holes (modelled `null`, see header) on
overshoot, resize on `length`, and silently acquire an invisible
non-index property otherwise (`none`, no observable write). -/
def jsAssign (t : Option JsonValue) (key? : Option Seg) (v : JsonValue) :
    Except JsErr (Option JsonValue) :=
  let key := match key? with
    | some seg => segKeyStr seg
    | none => "undefined"
  match t with
  | some (.obj fs) => .ok (some (.obj (objSet fs key v)))
  | some (.arr xs) =>
      if key = "length" then
        match v with
        | .num n =>
            if 0 ≤ n then
              .ok (some (.arr (if n.toNat ≤ xs.length then xs.take n.toNat
                               else xs ++ List.replicate (n.toNat - xs.length) .null)))
            else .error .typeError
        | _ => .error .typeError
      else
        match canonIdx? key with
        | some n =>
            if n < xs.length then .ok (some (.arr (xs.set n v)))
            else .ok (some (.arr (xs ++ List.replicate (n - xs.length) .null ++ [v])))
        | none => .ok none
  | _ => .error .typeError

/-- `updateValue(path, value)` of the source: the silent falsy-document
return, the history push, parent resolution, coercion, assignment,
notification. -/
def updateValue (st : JsonStore) (path : List Seg) (value : String) : JsResult :=
  if isFalsy st.data then .ok st
  else
    let st1 := pushHistory st
    let finalVal := normalizeUpdate value
    match modifyAt (some st1.data) path.dropLast
        (fun t => jsAssign t path.getLast? finalVal) with
    | .error e => .err e st1
    | .ok none => .ok { st1 with notifyCount := st1.notifyCount + 1 }
    | .ok (some d') => .ok { st1 with data := d', notifyCount := st1.notifyCount + 1 }

/-- The delete-all-then-reinsert rebuild of `renameKey`, preserving the
position of the renamed key
(`keys.forEach(k => k === oldKey ? obj[newKey] = temp[oldKey] : obj[k] = temp[k])`). -/
def rebuildRename (fs : List (String × JsonValue)) (oldKey? : Option Seg)
    (newKey : String) : List (String × JsonValue) :=
  fs.foldl
    (fun acc kv =>
      if segStrEq kv.1 oldKey? then objSet acc newKey kv.2
      else objSet acc kv.1 kv.2) []

/-- The mutation `renameKey` performs on the resolved parent node. An
object that owns a `"hasOwnProperty"` member shadows the method with a
non-callable JSON value, so the guard's call throws `TypeError` before
anything else. -/
def renameF (oldKey? : Option Seg) (newKey : String) :
    Option JsonValue → Except JsErr (Option JsonValue)
  | some (.arr _) => .error (.error "Cannot rename array index")
  | some (.obj fs) =>
      if hasKey fs "hasOwnProperty" then .error .typeError
      else if hasKey fs newKey ∧ ¬ segStrEq newKey oldKey? then
        .error (.error "Key already exists")
      else .ok (some (.obj (rebuildRename fs oldKey? newKey)))
  | some (.str s) =>
      if strHasOwn s newKey ∧ ¬ segStrEq newKey oldKey? then
        .error (.error "Key already exists")
      else if s = "" then .ok none
      else .error .typeError
  | some (.num _) => .ok none
  | some (.bool _) => .ok none
  | some .null => .error .typeError
  | none => .error .typeError

/-- `renameKey(path, newKey)` of the source. -/
def renameKey (st : JsonStore) (path : List Seg) (newKey : String) : JsResult :=
  if isFalsy st.data then .ok st
  else
    let st1 := pushHistory st
    match modifyAt (some st1.data) path.dropLast (renameF path.getLast? newKey) with
    | .error e => .err e st1
    | .ok none => .ok { st1 with notifyCount := st1.notifyCount + 1 }
    | .ok (some d') => .ok { st1 with data := d', notifyCount := st1.notifyCount + 1 }

/-- The mutation `addNode` performs on the resolved container. -/
def addF (key : String) (v : JsonValue) :
    Option JsonValue → Except JsErr (Option JsonValue)
  | some (.arr xs) => .ok (some (.arr (xs ++ [v])))
  | some (.obj fs) =>
      if key = "" then .error (.error "Key is required")
      else if hasKey fs "hasOwnProperty" then .error .typeError
      else if hasKey fs key then .error (.error "Key already exists")
      else .ok (some (.obj (objSet fs key v)))
  | some (.str s) =>
      if key = "" then .error (.error "Key is required")
      else if strHasOwn s key then .error (.error "Key already exists")
      else .error .typeError
  | some (.num _) =>
      if key = "" then .error (.error "Key is required") else .error .typeError
  | some (.bool _) =>
      if key = "" then .error (.error "Key is required") else .error .typeError
  | some .null =>
      if key = "" then .error (.error "Key is required") else .error .typeError
  | none =>
      if key = "" then .error (.error "Key is required") else .error .typeError

/-- `addNode(path, key, value)` of the source: history push first (no
falsy guard), container resolution, coercion, append/insert, notify. -/
def addNode (st : JsonStore) (path : List Seg) (key : String) (value : String) :
    JsResult :=
  let st1 := pushHistory st
  match modifyAt (some st1.data) path (addF key (normalizeAdd value)) with
  | .error e => .err e st1
  | .ok none => .ok { st1 with notifyCount := st1.notifyCount + 1 }
  | .ok (some d') => .ok { st1 with data := d', notifyCount := st1.notifyCount + 1 }

/-- The parent-level mutation of `deleteNode` (and of `moveNode`'s
removal stage): array `splice(key, 1)`, object `delete obj[key]`;
`delete` on a string's own property throws in strict mode, on other
primitives it is a silent no-op. -/
def jsDelete (t : Option JsonValue) (key : Seg) :
    Except JsErr (Option JsonValue)
  := match t with
  | some (.arr xs) =>
      .ok (some (.arr (arrRemoveAt xs (spliceStart (segToNumber key) xs.length))))
  | some (.obj fs) => .ok (some (.obj (objDel fs (segKeyStr key))))
  | some (.str s) =>
      if strHasOwn s (segKeyStr key) then .error .typeError else .ok none
  | some (.num _) => .ok none
  | some (.bool _) => .ok none
  | some .null => .error .typeError
  | none => .error .typeError

/-- `deleteNode(path)` of the source. -/
def deleteNode (st : JsonStore) (path : List Seg) : JsResult :=
  if path = [] then .err (.error "Cannot delete root") st
  else
    let st1 := pushHistory st
    let key := (path.getLast?).getD (.key "undefined")
    match modifyAt (some st1.data) path.dropLast (fun p => jsDelete p key) with
    | .error e => .err e st1
    | .ok none => .ok { st1 with notifyCount := st1.notifyCount + 1 }
    | .ok (some d') => .ok { st1 with data := d', notifyCount := st1.notifyCount + 1 }

/-! ## duplicateNode -/

/-- The unique-key search loop shared by `duplicateNode` and `moveNode`:
try `base_c`, `base_(c+1)`, … until `taken` fails. The fuel is one more
than the number of existing keys, so the fallback arm is unreachable. -/
def freshLoop (taken : String → Bool) (base : String) : Nat → Nat → String
  | c, 0 => base ++ "_" ++ Nat.repr c
  | c, fuel + 1 =>
      let cand := base ++ "_" ++ Nat.repr c
      if taken cand then freshLoop taken base (c + 1) fuel else cand

/-- `let k = base; while (taken(k)) k = base_counter++`. -/
def freshFrom (taken : String → Bool) (base : String) (fuel : Nat) : String :=
  if taken base then freshLoop taken base 1 fuel else base

/-- `(oldKey as number) + 1` of `duplicateNode`: genuine addition for a
number segment, JS string concatenation with `"1"` (then `ToNumber` at
the splice) for a string segment. -/
def dupNum : Seg → Option Int
  | .idx n => some (n + 1)
  | .key s => jsNumber (s ++ "1").data

/-- The parent-level mutation of `duplicateNode`: array insert after
the original index; object insert of a `_copy`-suffixed fresh key right
after the original key via a delete-and-rebuild. -/
def dupF (oldKey : Seg) (clone : JsonValue) :
    Option JsonValue → Except JsErr (Option JsonValue)
  | some (.arr xs) =>
      .ok (some (.arr (arrInsertAt xs (spliceStart (dupNum oldKey) xs.length) clone)))
  | some (.obj fs) =>
      if hasKey fs "hasOwnProperty" then .error .typeError
      else
        .ok (some (.obj (fs.foldl
          (fun acc kv =>
            let acc1 := objSet acc kv.1 kv.2
            if segStrEq kv.1 (some oldKey) then
              objSet acc1
                (freshFrom (hasKey fs) (segKeyStr oldKey ++ "_copy")
                  (fs.length + 1)) clone
            else acc1) [])))
  | some (.str s) => if s = "" then .ok none else .error .typeError
  | some (.num _) => .ok none
  | some (.bool _) => .ok none
  | some .null => .error .typeError
  | none => .error .typeError

/-- `duplicateNode(path)` of the source: silent root no-op, history
push, deep clone (a `JSON` round-trip, which throws `SyntaxError` when
the value is `undefined`), parent-level insert, notify. -/
def duplicateNode (st : JsonStore) (path : List Seg) : JsResult :=
  if path = [] then .ok st
  else
    let st1 := pushHistory st
    let parentPath := path.dropLast
    let oldKey := (path.getLast?).getD (.key "undefined")
    match getAtGo (some st1.data) parentPath with
    | .error _ => .err .typeError st1
    | .ok _parent =>
      match getAtGo (some st1.data) path with
      | .error _ => .err .typeError st1
      | .ok none => .err .syntaxError st1
      | .ok (some orig) =>
          match modifyAt (some st1.data) parentPath (dupF oldKey orig) with
          | .error e => .err e st1
          | .ok none => .ok { st1 with notifyCount := st1.notifyCount + 1 }
          | .ok (some d') =>
              .ok { st1 with data := d', notifyCount := st1.notifyCount + 1 }

/-! ## moveNode -/

/-- Boolean list-prefix test (JS `String.prototype.startsWith`, on the
character lists of the serialized paths). -/
def strPre : List Char → List Char → Bool
  | [], _ => true
  | _ :: _, [] => false
  | a :: as, b :: bs => a = b && strPre as bs

/-- JSON string escaping of one character, as `JSON.stringify` emits
it. -/
def escChar (c : Char) : List Char :=
  if c = '"' then ['\\', '"']
  else if c = '\\' then ['\\', '\\']
  else if c = Char.ofNat 10 then ['\\', 'n']
  else if c = Char.ofNat 13 then ['\\', 'r']
  else if c = Char.ofNat 9 then ['\\', 't']
  else if c = Char.ofNat 8 then ['\\', 'b']
  else if c = Char.ofNat 12 then ['\\', 'f']
  else if c.toNat < 32 then
    ['\\', 'u', '0', '0',
     (if c.toNat / 16 < 10 then Char.ofNat ('0'.toNat + c.toNat / 16)
      else Char.ofNat ('a'.toNat + c.toNat / 16 - 10)),
     (if c.toNat % 16 < 10 then Char.ofNat ('0'.toNat + c.toNat % 16)
      else Char.ofNat ('a'.toNat + c.toNat % 16 - 10))]
  else [c]

/-- `JSON.stringify` of one path segment. -/
def segChars : Seg → List Char
  | .idx n => (toString n).data
  | .key s => '"' :: (s.data.flatMap escChar) ++ ['"']

/-- The comma-joined members of `JSON.stringify(path)`. -/
def pathBody : List Seg → List Char
  | [] => []
  | [s] => segChars s
  | s :: rest => segChars s ++ ',' :: pathBody rest

/-- `JSON.stringify(path)` as characters. -/
def pathChars (p : List Seg) : List Char :=
  '[' :: pathBody p ++ [']']

/-- The self-containment test of `moveNode`:
`JSON.stringify(toPath).startsWith(JSON.stringify(fromPath).slice(0, -1))`
combined with the nested length comparison. -/
def moveDescCheck (fromPath toPath : List Seg) : Bool :=
  strPre ((pathChars fromPath).dropLast) (pathChars toPath) &&
    decide (toPath.length > fromPath.length)

/-- `path.join('.')` (JS `Array.prototype.join`: each segment via
`String(...)`, no quoting). -/
def joinDot : List Seg → List Char
  | [] => []
  | [s] => (segKeyStr s).data
  | s :: rest => (segKeyStr s).data ++ '.' :: joinDot rest

/-- JS `<` on two path segments: lexicographic when both are strings,
numeric coercion otherwise (`NaN` compares false). -/
def jsLtSeg (a b : Seg) : Bool :=
  match a, b with
  | .key s, .key t => decide (s < t)
  | _, _ =>
      match segToNumber a, segToNumber b with
      | some x, some y => decide (x < y)
      | _, _ => false

/-- `toIdx - 1` on the destination's terminal segment (a number is
decremented; a numeric string coerces then decrements; a non-numeric
string yields JS `NaN`, observably the property name `"NaN"`). -/
def decSeg : Seg → Seg
  | .idx m => .idx (m - 1)
  | .key s =>
      match jsNumber s.data with
      | some i => .idx (i - 1)
      | none => .key "NaN"

/-- Step 2 of `moveNode`: decrement the destination index when the
source was a preceding sibling in the same array. -/
def adjustTo (fpIsArr : Bool) (fromParentPath : List Seg) (fromKey : Seg)
    (toPath : List Seg) : List Seg :=
  if fpIsArr ∧ joinDot fromParentPath = joinDot toPath.dropLast then
    match toPath.getLast? with
    | some toSeg =>
        if jsLtSeg fromKey toSeg then toPath.dropLast ++ [decSeg toSeg]
        else toPath
    | none => toPath
  else toPath

/-- The `position = 'inside'` insertion of `moveNode`: array push,
object insert under a collision-resolved key, silent drop on anything
else (`typeof target === 'object' && target !== null` fails). -/
def insideF (fromKey : Seg) (value : JsonValue) :
    Option JsonValue → Except JsErr (Option JsonValue)
  | some (.arr xs) => .ok (some (.arr (xs ++ [value])))
  | some (.obj fs) =>
      if hasKey fs "hasOwnProperty" then .error .typeError
      else
        .ok (some (.obj (objSet fs
          (freshFrom (hasKey fs) (segKeyStr fromKey) (fs.length + 1)) value)))
  | _ => .ok none

/-- The `before`/`after` insertion of `moveNode` at the destination's
parent: array splice at the (coerced, possibly incremented) index;
object delete-and-rebuild inserting a collision-resolved key around the
destination key; strings throw on the rebuild's deletes; other
primitives silently drop the value. -/
def beforeAfterF (pos : MvPos) (targetKey? : Option Seg) (fromKey : Seg)
    (value : JsonValue) : Option JsonValue → Except JsErr (Option JsonValue)
  | some (.arr xs) =>
      let n? := targetKey?.bind segToNumber
      let n2? := if pos = .after then n?.map (fun i => i + 1) else n?
      .ok (some (.arr (arrInsertAt xs (spliceStart n2? xs.length) value)))
  | some (.obj fs) =>
      if hasKey fs "hasOwnProperty" then .error .typeError
      else
        let nk := freshFrom (fun c => hasKey fs c && !segStrEq c targetKey?)
          (segKeyStr fromKey) (fs.length + 1)
        .ok (some (.obj (fs.foldl
          (fun acc kv =>
            let acc0 := if pos = .before ∧ segStrEq kv.1 targetKey? then
                objSet acc nk value else acc
            let acc1 := objSet acc0 kv.1 kv.2
            if pos = .after ∧ segStrEq kv.1 targetKey? then objSet acc1 nk value
            else acc1) [])))
  | some (.str s) => if s = "" then .ok none else .error .typeError
  | some (.num _) => .ok none
  | some (.bool _) => .ok none
  | some .null => .error .typeError
  | none => .error .typeError

/-- `moveNode(fromPath, toPath, position)` of the source: silent no-ops
for an empty source path and for the serialized-prefix descendant test;
clone, history push, source removal, same-array index adjustment, and
the position-dependent insertion. -/
def moveNode (st : JsonStore) (fromPath toPath : List Seg) (pos : MvPos) :
    JsResult :=
  if fromPath = [] then .ok st
  else if moveDescCheck fromPath toPath then .ok st
  else
    match getAtGo (some st.data) fromPath with
    | .error _ => .err .typeError st
    | .ok none => .err .syntaxError st
    | .ok (some value) =>
        let st1 := pushHistory st
        let fromParentPath := fromPath.dropLast
        let fromKey := (fromPath.getLast?).getD (.key "undefined")
        let fpIsArr :=
          match getAtGo (some st1.data) fromParentPath with
          | .ok (some (.arr _)) => true
          | _ => false
        match modifyAt (some st1.data) fromParentPath
            (fun p => jsDelete p fromKey) with
        | .error e => .err e st1
        | .ok d1? =>
            let data1 := d1?.getD st1.data
            let st2 := { st1 with data := data1 }
            let adjusted := adjustTo fpIsArr fromParentPath fromKey toPath
            match pos with
            | .inside =>
                match modifyAt (some data1) adjusted (insideF fromKey value) with
                | .error e => .err e st2
                | .ok d2? =>
                    .ok { st2 with data := d2?.getD data1,
                                   notifyCount := st2.notifyCount + 1 }
            | _ =>
                match modifyAt (some data1) adjusted.dropLast
                    (beforeAfterF pos adjusted.getLast? fromKey value) with
                | .error e => .err e st2
                | .ok d2? =>
                    .ok { st2 with data := d2?.getD data1,
                                   notifyCount := st2.notifyCount + 1 }

/-! ## The operation alphabet -/

/-- One user-level mutating operation, for statements quantifying over
"any single mutating operation". -/
inductive StoreOp where
  | setDoc (d : JsonValue)
  | update (p : List Seg) (raw : String)
  | rename (p : List Seg) (k : String)
  | add (p : List Seg) (k : String) (raw : String)
  | del (p : List Seg)
  | dup (p : List Seg)
  | move (f t : List Seg) (pos : MvPos)

/-- Run one operation against the store. -/
def applyOp : StoreOp → JsonStore → JsResult
  | .setDoc d, st => .ok (st.set d)
  | .update p raw, st => updateValue st p raw
  | .rename p k, st => renameKey st p k
  | .add p k raw, st => addNode st p k raw
  | .del p, st => deleteNode st p
  | .dup p, st => duplicateNode st p
  | .move f t pos, st => moveNode st f t pos

/-! ## Basic facts about the history mechanism -/

lemma capPush_getLast? (h : List JsonValue) (d : JsonValue) :
    (capPush h d).getLast? = some d := by
  unfold capPush
  split
  · next hlen =>
      cases h with
      | nil => simp [maxHistory] at hlen
      | cons a t => simp [List.getLast?_concat]
  · simp [List.getLast?_concat]

lemma capPush_length_le (h : List JsonValue) (d : JsonValue)
    (hle : h.length ≤ maxHistory) : (capPush h d).length ≤ maxHistory := by
  unfold capPush
  split
  · next hlen => simp_all
  · next hlen => simp_all

lemma capPush_ne_nil (h : List JsonValue) (d : JsonValue) :
    capPush h d ≠ [] := by
  intro hc
  have := capPush_getLast? h d
  rw [hc] at this
  simp at this

lemma pushHistory_data (st : JsonStore) : (pushHistory st).data = st.data := by
  unfold pushHistory; split <;> rfl

lemma pushHistory_listeners (st : JsonStore) :
    (pushHistory st).listeners = st.listeners := by
  unfold pushHistory; split <;> rfl

lemma pushHistory_notifyCount (st : JsonStore) :
    (pushHistory st).notifyCount = st.notifyCount := by
  unfold pushHistory; split <;> rfl

lemma pushHistory_hist_of (st : JsonStore) (hn : isNullV st.data = false) :
    (pushHistory st).history = capPush st.history st.data := by
  unfold pushHistory
  split
  · next h => rw [h] at hn; cases hn
  · rfl

lemma pushHistory_hist_cases (st : JsonStore) :
    (pushHistory st).history = st.history ∨
      (isNullV st.data = false ∧
        (pushHistory st).history = capPush st.history st.data) := by
  unfold pushHistory
  split
  · exact Or.inl rfl
  · next h => exact Or.inr ⟨by simpa using h, rfl⟩

lemma isFalsy_false_not_null (v : JsonValue) (h : isFalsy v = false) :
    isNullV v = false := by
  cases v <;> simp_all [isFalsy, isNullV]

lemma undo_of_history_eq (st' : JsonStore) (h : List JsonValue) (d : JsonValue)
    (hh : st'.history = capPush h d) :
    (undo st').2 = true ∧ (undo st').1.data = d := by
  have h1 : st'.history.getLast? = some d := by rw [hh]; exact capPush_getLast? h d
  simp [undo, h1]

lemma undo_history_length (st : JsonStore) :
    ((undo st).1).history.length ≤ st.history.length := by
  unfold undo
  cases hl : st.history.getLast? with
  | none => simp
  | some prev => simp [List.length_dropLast]

/-! ## Where each operation leaves the history

Every operation either returns before touching anything (guards and
pre-push throws), or performs exactly one `pushHistory()` and never
modifies the history again. -/

lemma set_hist (st : JsonStore) (d : JsonValue) :
    (st.set d).history = (pushHistory st).history := by
  by_cases hn : isNullV st.data = true
  · simp [JsonStore.set, hn, pushHistory]
  · simp [JsonStore.set, hn]

lemma updateValue_store_shape (st : JsonStore) (p : List Seg) (v : String) :
    (updateValue st p v).store = st ∨
      ((updateValue st p v).store).history = (pushHistory st).history := by
  simp only [updateValue]
  split
  · exact Or.inl rfl
  · right; split <;> rfl

lemma renameKey_store_shape (st : JsonStore) (p : List Seg) (k : String) :
    (renameKey st p k).store = st ∨
      ((renameKey st p k).store).history = (pushHistory st).history := by
  simp only [renameKey]
  split
  · exact Or.inl rfl
  · right; split <;> rfl

lemma addNode_store_shape (st : JsonStore) (p : List Seg) (k v : String) :
    (addNode st p k v).store = st ∨
      ((addNode st p k v).store).history = (pushHistory st).history := by
  simp only [addNode]
  right; split <;> rfl

lemma deleteNode_store_shape (st : JsonStore) (p : List Seg) :
    (deleteNode st p).store = st ∨
      ((deleteNode st p).store).history = (pushHistory st).history := by
  simp only [deleteNode]
  split
  · exact Or.inl rfl
  · right; split <;> rfl

lemma duplicateNode_store_shape (st : JsonStore) (p : List Seg) :
    (duplicateNode st p).store = st ∨
      ((duplicateNode st p).store).history = (pushHistory st).history := by
  simp only [duplicateNode]
  split
  · exact Or.inl rfl
  · right
    split
    · rfl
    · split
      · rfl
      · rfl
      · split <;> rfl

lemma moveNode_store_shape (st : JsonStore) (f t : List Seg) (pos : MvPos) :
    (moveNode st f t pos).store = st ∨
      ((moveNode st f t pos).store).history = (pushHistory st).history := by
  simp only [moveNode]
  split
  · exact Or.inl rfl
  · split
    · exact Or.inl rfl
    · split
      · exact Or.inl rfl
      · exact Or.inl rfl
      · right
        split
        · rfl
        · split
          · split <;> rfl
          · split <;> rfl

lemma applyOp_store_shape (o : StoreOp) (st : JsonStore) :
    (applyOp o st).store = st ∨
      ((applyOp o st).store).history = (pushHistory st).history := by
  cases o with
  | setDoc d => exact Or.inr (set_hist st d)
  | update p raw => exact updateValue_store_shape st p raw
  | rename p k => exact renameKey_store_shape st p k
  | add p k raw => exact addNode_store_shape st p k raw
  | del p => exact deleteNode_store_shape st p
  | dup p => exact duplicateNode_store_shape st p
  | move f t pos => exact moveNode_store_shape st f t pos

lemma applyOp_hist_bound (o : StoreOp) (st : JsonStore)
    (hle : st.history.length ≤ maxHistory) :
    ((applyOp o st).store).history.length ≤ maxHistory := by
  rcases applyOp_store_shape o st with h | h
  · rw [h]; exact hle
  · rw [h]
    rcases pushHistory_hist_cases st with h2 | ⟨_, h2⟩
    · rw [h2]; exact hle
    · rw [h2]; exact capPush_length_le _ _ hle

lemma applyOp_ok_shape (o : StoreOp) (st st' : JsonStore)
    (hn : isNullV st.data = false) (h : applyOp o st = .ok st') :
    st' = st ∨ st'.history = capPush st.history st.data := by
  have hs := applyOp_store_shape o st
  rw [h] at hs
  simp only [JsResult.store] at hs
  rcases hs with h1 | h1
  · exact Or.inl h1
  · right
    rw [pushHistory_hist_of st hn] at h1
    exact h1

/-! ## No operation ever touches the listener list -/

lemma set_listeners (st : JsonStore) (d : JsonValue) :
    (st.set d).listeners = st.listeners := by
  by_cases hn : isNullV st.data = true
  · simp [JsonStore.set, hn, pushHistory]
  · simp [JsonStore.set, hn, pushHistory_listeners]

lemma updateValue_listeners (st : JsonStore) (p : List Seg) (v : String) :
    ((updateValue st p v).store).listeners = st.listeners := by
  simp only [updateValue]
  split
  · rfl
  · split <;> simp [JsResult.store, pushHistory_listeners]

lemma renameKey_listeners (st : JsonStore) (p : List Seg) (k : String) :
    ((renameKey st p k).store).listeners = st.listeners := by
  simp only [renameKey]
  split
  · rfl
  · split <;> simp [JsResult.store, pushHistory_listeners]

lemma addNode_listeners (st : JsonStore) (p : List Seg) (k v : String) :
    ((addNode st p k v).store).listeners = st.listeners := by
  simp only [addNode]
  split <;> simp [JsResult.store, pushHistory_listeners]

lemma deleteNode_listeners (st : JsonStore) (p : List Seg) :
    ((deleteNode st p).store).listeners = st.listeners := by
  simp only [deleteNode]
  split
  · rfl
  · split <;> simp [JsResult.store, pushHistory_listeners]

lemma duplicateNode_listeners (st : JsonStore) (p : List Seg) :
    ((duplicateNode st p).store).listeners = st.listeners := by
  simp only [duplicateNode]
  split
  · rfl
  · split
    · simp [JsResult.store, pushHistory_listeners]
    · split
      · simp [JsResult.store, pushHistory_listeners]
      · simp [JsResult.store, pushHistory_listeners]
      · split <;> simp [JsResult.store, pushHistory_listeners]

lemma moveNode_listeners (st : JsonStore) (f t : List Seg) (pos : MvPos) :
    ((moveNode st f t pos).store).listeners = st.listeners := by
  simp only [moveNode]
  split
  · rfl
  · split
    · rfl
    · split
      · rfl
      · rfl
      · split
        · simp [JsResult.store, pushHistory_listeners]
        · split
          · split <;> simp [JsResult.store, pushHistory_listeners]
          · split <;> simp [JsResult.store, pushHistory_listeners]

lemma applyOp_listeners (o : StoreOp) (st : JsonStore) :
    ((applyOp o st).store).listeners = st.listeners := by
  cases o with
  | setDoc d => exact set_listeners st d
  | update p raw => exact updateValue_listeners st p raw
  | rename p k => exact renameKey_listeners st p k
  | add p k raw => exact addNode_listeners st p k raw
  | del p => exact deleteNode_listeners st p
  | dup p => exact duplicateNode_listeners st p
  | move f t pos => exact moveNode_listeners st f t pos

/-! ## Concrete example stores for the closed statements -/

/-- The document `{"a": 1, "b": 2}`. -/
def exDoc : JsonValue := .obj [("a", .num 1), ("b", .num 2)]

/-- A fresh store loaded with `exDoc` (empty history, no listeners). -/
def exStore : JsonStore := mkStore exDoc

/-! ## C7 — undo after a single mutating operation -/

/-- **C7** (counterexample). The claim quantifies over "every single
successful mutating operation"; `duplicateNode([])` is such a call
(it completes without an error), yet on a fresh store holding
`{"a":1,"b":2}` it records no snapshot, so the following `undo()`
returns `false`, not `true` as the claim requires. -/
theorem c7_counterexample :
    applyOp (.dup []) exStore = .ok exStore ∧ undo exStore = (exStore, false) :=
  ⟨rfl, rfl⟩

/-- **C7** (amended): starting from a loaded document, any mutating
operation that completes without throwing either left the whole store
exactly as it was (the silent no-op returns: `updateValue`/`renameKey`
on a falsy document, `duplicateNode` of the root, `moveNode` from the
root or into a self/descendant destination), or else `undo()` returns
`true` and restores the starting document exactly. -/
theorem c7_theorem (o : StoreOp) (st st' : JsonStore)
    (hn : isNullV st.data = false) (h : applyOp o st = .ok st') :
    st' = st ∨ ((undo st').2 = true ∧ (undo st').1.data = st.data) := by
  rcases applyOp_ok_shape o st st' hn h with h1 | h1
  · exact Or.inl h1
  · exact Or.inr (undo_of_history_eq st' st.history st.data h1)

/-- The store `deleteNode(["a"])` leaves behind on `exStore`. -/
def exDelStore : JsonStore := ⟨.obj [("b", .num 2)], [], [exDoc], 1⟩

/-- **C7** (witness): `deleteNode(["a"])` on `exStore` succeeds, and the
amended claim instantiated there says its `undo()` restores `exDoc`. -/
theorem c7_witness :
    applyOp (.del [.key "a"]) exStore = .ok exDelStore ∧
      (exDelStore = exStore ∨
        ((undo exDelStore).2 = true ∧ (undo exDelStore).1.data = exStore.data)) :=
  ⟨rfl, c7_theorem (.del [.key "a"]) exStore exDelStore rfl rfl⟩

/-! ## C8 — bounded FIFO history, LIFO undo -/

/-- **C8**: (1) no operation ever grows the history beyond the
50-snapshot bound; (2) `undo` never grows it; (3) a push onto a full
history evicts the oldest snapshot and appends the new one (FIFO under
pressure); (4) `undo` always consumes the most recent snapshot (LIFO),
restoring it as the document. -/
theorem c8_theorem :
    (∀ (o : StoreOp) (st : JsonStore), st.history.length ≤ maxHistory →
        ((applyOp o st).store).history.length ≤ maxHistory) ∧
    (∀ st : JsonStore, ((undo st).1).history.length ≤ st.history.length) ∧
    (∀ (h : List JsonValue) (d : JsonValue), h.length = maxHistory →
        capPush h d = h.tail ++ [d]) ∧
    (∀ (st : JsonStore) (h : List JsonValue) (x : JsonValue),
        st.history = h ++ [x] →
        undo st = ({ st with
                      data := x
                      history := h
                      notifyCount := st.notifyCount + 1 }, true)) := by
  refine ⟨applyOp_hist_bound, undo_history_length, ?_, ?_⟩
  · intro h d hlen
    have hcond : (h ++ [d]).length > maxHistory := by simp [hlen]
    unfold capPush
    rw [if_pos hcond]
    cases h with
    | nil => simp [maxHistory] at hlen
    | cons a tl => rfl
  · intro st h x hh
    simp [undo, hh, List.getLast?_concat, List.dropLast_concat]

/-- **C8** (witness): the four parts instantiated concretely — a delete
on `exStore` keeps the bound, a push onto a full 50-snapshot history
evicts the head, and `undo` pops the single snapshot `7` back in. -/
theorem c8_witness :
    ((applyOp (.del [.key "a"]) exStore).store).history.length ≤ maxHistory ∧
    capPush (List.replicate maxHistory (.num 0)) (.num 1)
      = (List.replicate maxHistory (JsonValue.num 0)).tail ++ [.num 1] ∧
    undo ⟨.num 5, [], [.num 7], 0⟩ = (⟨.num 7, [], [], 1⟩, true) :=
  ⟨c8_theorem.1 (.del [.key "a"]) exStore (by simp [exStore, mkStore]),
   c8_theorem.2.2.1 _ _ (by simp),
   c8_theorem.2.2.2 ⟨.num 5, [], [.num 7], 0⟩ [] (.num 7) rfl⟩

/-! ## C9 — the root no-ops are completely silent -/

/-- **C9**: `duplicateNode([])` and `moveNode([], …)` return the store
exactly as it was: same document, same history (no snapshot consumed),
same `notifyCount` (no subscriber notification), same listeners. -/
theorem c9_theorem (st : JsonStore) (q : List Seg) (pos : MvPos) :
    duplicateNode st [] = .ok st ∧ moveNode st [] q pos = .ok st :=
  ⟨rfl, rfl⟩

/-! ## C10 — unsubscribe removes every registration of the listener -/

/-- **C10**: the unsubscribe closure filters with `l !== listener`, so
one call removes every registration of that listener (its count drops
to 0 no matter how many times it was subscribed), the listener is no
longer among the targets `notify()` invokes, and — since no store
operation modifies the listener list — it stays out of every subsequent
notification until re-subscribed. -/
theorem c10_theorem (st : JsonStore) (f : Nat) :
    (unsubscribe f st).listeners.count f = 0 ∧
    f ∉ notifyTargets (unsubscribe f st) ∧
    (∀ o : StoreOp,
      f ∉ notifyTargets ((applyOp o (unsubscribe f st)).store)) := by
  have hmem : f ∉ st.listeners.filter (fun x => x != f) := by
    intro hf
    simpa using (List.mem_filter.mp hf).2
  refine ⟨List.count_eq_zero.mpr hmem, hmem, ?_⟩
  intro o
  rw [show notifyTargets ((applyOp o (unsubscribe f st)).store)
        = (unsubscribe f st).listeners from
      applyOp_listeners o (unsubscribe f st)]
  exact hmem

/-! ## C1 — what a failing renameKey/addNode leaves behind -/

/-- **C1** (amended): a `renameKey` or `addNode` call that throws leaves
the document, the listeners and the notification state exactly as they
were — but the undo history has already received the pre-call snapshot,
because the push precedes validation: the post-failure store is exactly
`pushHistory` of the pre-call store. -/
theorem c1_theorem :
    (∀ (st : JsonStore) (p : List Seg) (k : String) (e : JsErr)
        (st' : JsonStore),
        renameKey st p k = .err e st' → st' = pushHistory st) ∧
    (∀ (st : JsonStore) (p : List Seg) (k v : String) (e : JsErr)
        (st' : JsonStore),
        addNode st p k v = .err e st' → st' = pushHistory st) := by
  constructor
  · intro st p k e st' h
    simp only [renameKey] at h
    split at h
    · exact absurd h (by simp)
    · split at h
      · cases h; rfl
      · exact absurd h (by simp)
      · exact absurd h (by simp)
  · intro st p k v e st' h
    simp only [addNode] at h
    split at h
    · cases h; rfl
    · exact absurd h (by simp)
    · exact absurd h (by simp)

/-- **C1** (counterexample): on a fresh store holding `{"a":1,"b":2}`,
`renameKey(["a"], "b")` throws the duplicate-key error and leaves the
document untouched — but the history has grown from 0 to 1 snapshots,
so the operation did **not** leave the undo history as it was. -/
theorem c1_counterexample :
    renameKey exStore [.key "a"] "b"
      = .err (.error "Key already exists") ⟨exDoc, [], [exDoc], 0⟩ ∧
    exStore.history.length = 0 ∧
    ((renameKey exStore [.key "a"] "b").store).history.length = 1 :=
  ⟨rfl, rfl, rfl⟩

/-- **C1** (witness): the amended statement evaluated on the concrete
failing rename above. -/
theorem c1_witness :
    renameKey exStore [.key "a"] "b"
      = .err (.error "Key already exists") ⟨exDoc, [], [exDoc], 0⟩ ∧
    (⟨exDoc, [], [exDoc], 0⟩ : JsonStore) = pushHistory exStore :=
  ⟨rfl, c1_theorem.1 exStore [.key "a"] "b" (.error "Key already exists")
    ⟨exDoc, [], [exDoc], 0⟩ rfl⟩

/-! ## C2 — moving into a descendant is a silent no-op; moving onto
itself is not -/

lemma strPre_self_append (xs ys : List Char) : strPre xs (xs ++ ys) = true := by
  induction xs with
  | nil => rfl
  | cons a as ih => simp [strPre, ih]

lemma pathBody_append (p r : List Seg) (hp : p ≠ []) (hr : r ≠ []) :
    pathBody (p ++ r) = pathBody p ++ ',' :: pathBody r := by
  induction p with
  | nil => exact absurd rfl hp
  | cons s rest ih =>
      cases rest with
      | nil =>
          cases r with
          | nil => exact absurd rfl hr
          | cons b bs => simp [pathBody]
      | cons s2 rest2 =>
          have h1 : pathBody (s :: s2 :: rest2 ++ r)
              = segChars s ++ ',' :: pathBody (s2 :: rest2 ++ r) := by
            rw [List.cons_append]; rfl
          rw [h1, ih (by simp),
            show pathBody (s :: s2 :: rest2)
              = segChars s ++ ',' :: pathBody (s2 :: rest2) from rfl]
          simp

lemma moveDescCheck_descendant (p r : List Seg) (hp : p ≠ []) (hr : r ≠ []) :
    moveDescCheck p (p ++ r) = true := by
  unfold moveDescCheck pathChars
  have h1 : (('[' :: pathBody p ++ [']']) : List Char).dropLast
      = '[' :: pathBody p := by
    rw [show ('[' :: pathBody p ++ [']'] : List Char)
        = ('[' :: pathBody p) ++ [']'] by simp]
    exact List.dropLast_concat
  rw [h1, pathBody_append p r hp hr]
  have h2 : ('[' :: (pathBody p ++ ',' :: pathBody r) ++ [']'] : List Char)
      = ('[' :: pathBody p) ++ (',' :: pathBody r ++ [']']) := by simp
  rw [h2, strPre_self_append]
  simpa using List.length_pos.mpr hr

/-- **C2** (amended): for every store, source path `p` and **strict**
descendant destination `p ++ r` (`r ≠ []`), `moveNode` returns with the
store completely unchanged — the serialized-prefix test catches every
strict descendant. For `q = p` the test's length guard does not fire
and the move proceeds (see the counterexample: it can delete the
node). -/
theorem c2_theorem (st : JsonStore) (p r : List Seg) (pos : MvPos)
    (hr : r ≠ []) : moveNode st p (p ++ r) pos = .ok st := by
  by_cases hp : p = []
  · subst hp; rfl
  · unfold moveNode
    rw [if_neg hp]
    rw [moveDescCheck_descendant p r hp hr]
    rfl

/-- **C2** (counterexample): with document `{"a": 1}`,
`moveNode(["a"], ["a"], 'inside')` — destination equal to the source —
is not rejected: it deletes the node and drops its value, leaving `{}`
(together with a pushed snapshot and a notification), so the document
is not unchanged. -/
theorem c2_counterexample :
    moveNode (mkStore (.obj [("a", .num 1)])) [.key "a"] [.key "a"] .inside
      = .ok ⟨.obj [], [], [.obj [("a", .num 1)]], 1⟩ ∧
    JsonValue.obj [] ≠ .obj [("a", .num 1)] :=
  ⟨rfl, by simp⟩

/-- **C2** (witness): the amended statement evaluated at the concrete
strict descendant `["a"] ++ ["x"]` of `["a"]`. -/
theorem c2_witness :
    moveNode exStore [.key "a"] ([.key "a"] ++ [.key "x"]) .before
      = .ok exStore :=
  c2_theorem exStore [.key "a"] [.key "x"] .before (by simp)

/-! ## C3 — moveNode's failure modes -/

lemma jsGet_error (t : Option JsonValue) (seg : Seg) (e : JsErr)
    (h : jsGet t seg = .error e) : e = .typeError := by
  cases t with
  | none => cases h; rfl
  | some v =>
      cases v with
      | null => cases h; rfl
      | str s => exact absurd h (by simp [jsGet])
      | num n => exact absurd h (by simp [jsGet])
      | bool b => exact absurd h (by simp [jsGet])
      | arr xs => exact absurd h (by simp [jsGet])
      | obj fs => exact absurd h (by simp [jsGet])

lemma modifyAt_error_cases (t : Option JsonValue) (p : List Seg)
    (f : Option JsonValue → Except JsErr (Option JsonValue)) (e : JsErr)
    (h : modifyAt t p f = .error e) :
    e = .typeError ∨ ∃ c, f c = .error e := by
  induction p generalizing t with
  | nil => exact Or.inr ⟨t, h⟩
  | cons seg rest ih =>
      simp only [modifyAt] at h
      split at h
      · next e1 hg =>
          cases h
          exact Or.inl (jsGet_error t seg e hg)
      · next c hg =>
          split at h
          · next e1 hrec =>
              cases h
              exact ih c hrec
          · exact absurd h (by simp)
          · exact absurd h (by simp)

lemma insideF_error (fk : Seg) (v : JsonValue) (c : Option JsonValue)
    (e : JsErr) (h : insideF fk v c = .error e) : e = .typeError := by
  cases c with
  | none => simp [insideF] at h
  | some x =>
      cases x with
      | obj fs =>
          simp only [insideF] at h
          split at h
          · cases h; rfl
          · exact absurd h (by simp)
      | arr xs => exact absurd h (by simp [insideF])
      | str t => exact absurd h (by simp [insideF])
      | num n => exact absurd h (by simp [insideF])
      | bool b => exact absurd h (by simp [insideF])
      | null => exact absurd h (by simp [insideF])

lemma beforeAfterF_error (pos : MvPos) (tk : Option Seg) (fk : Seg)
    (v : JsonValue) (c : Option JsonValue) (e : JsErr)
    (h : beforeAfterF pos tk fk v c = .error e) : e = .typeError := by
  cases c with
  | none => cases h; rfl
  | some x =>
      cases x with
      | null => cases h; rfl
      | str s =>
          simp only [beforeAfterF] at h
          split at h
          · exact absurd h (by simp)
          · cases h; rfl
      | num n => exact absurd h (by simp [beforeAfterF])
      | bool b => exact absurd h (by simp [beforeAfterF])
      | arr xs => exact absurd h (by simp [beforeAfterF])
      | obj fs =>
          simp only [beforeAfterF] at h
          split at h
          · cases h; rfl
          · exact absurd h (by simp)

lemma jsDelete_error (t : Option JsonValue) (k : Seg) (e : JsErr)
    (h : jsDelete t k = .error e) : e = .typeError := by
  cases t with
  | none => cases h; rfl
  | some x =>
      cases x with
      | null => cases h; rfl
      | str s =>
          simp only [jsDelete] at h
          split at h
          · cases h; rfl
          · exact absurd h (by simp)
      | num n => exact absurd h (by simp [jsDelete])
      | bool b => exact absurd h (by simp [jsDelete])
      | arr xs => exact absurd h (by simp [jsDelete])
      | obj fs => exact absurd h (by simp [jsDelete])

lemma moveNode_err_kind (st : JsonStore) (f t : List Seg) (pos : MvPos)
    (e : JsErr) (st' : JsonStore) (h : moveNode st f t pos = .err e st') :
    e = .typeError ∨ e = .syntaxError := by
  simp only [moveNode] at h
  split at h
  · exact absurd h (by simp)
  · split at h
    · exact absurd h (by simp)
    · split at h
      · cases h; exact Or.inl rfl
      · cases h; exact Or.inr rfl
      · next value hval =>
          split at h
          · next e1 hdel =>
              cases h
              left
              rcases modifyAt_error_cases _ _ _ _ hdel with h1 | ⟨c, hc⟩
              · exact h1
              · exact jsDelete_error _ _ _ hc
          · next d1 hdel =>
              split at h
              · split at h
                · next e1 hins =>
                    cases h
                    left
                    rcases modifyAt_error_cases _ _ _ _ hins with h1 | ⟨c, hc⟩
                    · exact h1
                    · exact insideF_error _ _ _ _ hc
                · exact absurd h (by simp)
              · split at h
                · next e1 hins =>
                    cases h
                    left
                    rcases modifyAt_error_cases _ _ _ _ hins with h1 | ⟨c, hc⟩
                    · exact h1
                    · exact beforeAfterF_error _ _ _ _ _ _ hc
                · exact absurd h (by simp)

/-- **C3** (amended): `moveNode` never raises an
`InvalidOperationError`-style `Error`. An empty `fromPath` returns
silently with the store untouched; every exception it can surface is a
runtime `TypeError` (resolution or rebuild on an unsuitable value) or
the `SyntaxError` of cloning an `undefined` source — and an `inside`
move onto a resolvable non-container completes without any error while
silently deleting the source node (see the counterexample). -/
theorem c3_theorem :
    (∀ (st : JsonStore) (q : List Seg) (pos : MvPos),
        moveNode st [] q pos = .ok st) ∧
    (∀ (st : JsonStore) (f t : List Seg) (pos : MvPos) (e : JsErr)
        (st' : JsonStore), moveNode st f t pos = .err e st' →
        e = .typeError ∨ e = .syntaxError) :=
  ⟨fun _ _ _ => rfl, moveNode_err_kind⟩

/-- **C3** (counterexample): `moveNode(["a"], ["b"], 'inside')` on
`{"a":1,"b":2}` targets the non-container `2`; the claim demands an
`InvalidOperationError` and no mutation, but the call completes without
raising anything and the document has mutated to `{"b":2}` — the moved
value is silently lost. -/
theorem c3_counterexample :
    moveNode exStore [.key "a"] [.key "b"] .inside
      = .ok ⟨.obj [("b", .num 2)], [], [exDoc], 1⟩ ∧
    JsonValue.obj [("b", .num 2)] ≠ exDoc :=
  ⟨rfl, by simp [exDoc]⟩

/-- **C3** (witness): a destination that resolves to nothing
(`["zz","w"]`) makes the concrete move throw, and the amended claim
instantiated there confirms the kind is `TypeError` (not an
`Error`-with-message). -/
theorem c3_witness :
    moveNode exStore [.key "a"] [.key "zz", .key "w"] .before
      = .err .typeError ⟨.obj [("b", .num 2)], [], [exDoc], 0⟩ ∧
    (JsErr.typeError = .typeError ∨ JsErr.typeError = .syntaxError) :=
  ⟨rfl, c3_theorem.2 exStore [.key "a"] [.key "zz", .key "w"] .before
    .typeError ⟨.obj [("b", .num 2)], [], [exDoc], 0⟩ rfl⟩

/-! ## C4 — getAt / updateValue failure behavior -/

lemma getAtGo_snoc (t : Option JsonValue) (p : List Seg) (s : Seg)
    (c : Option JsonValue) (h : getAtGo t p = .ok c) :
    getAtGo t (p ++ [s]) = jsGet c s := by
  induction p generalizing t with
  | nil =>
      have ht : t = c := by injection h
      rw [List.nil_append, ht]
      cases hj : jsGet c s with
      | error e => simp [getAtGo, hj]
      | ok c2 => simp [getAtGo, hj]
  | cons seg rest ih =>
      rw [List.cons_append]
      cases hg : jsGet t seg with
      | error e =>
          simp only [getAtGo, hg] at h
          exact absurd h (by simp)
      | ok c1 =>
          simp only [getAtGo, hg] at h ⊢
          exact ih c1 h

lemma hasKey_false_lookup (fs : List (String × JsonValue)) (k : String)
    (h : hasKey fs k = false) : lookupStr fs k = none := by
  unfold hasKey at h
  exact Option.not_isSome_iff_eq_none.mp (by simp [h])

/-- **C4** (amended): `getAt` raises no `PathResolutionError`: a
terminal object key that does not exist — and does not name one of the
twelve members every object inherits from `Object.prototype`, whose
reads return host functions instead — yields JS `undefined` with no
error at all (first conjunct); only reading a segment off
`null`/`undefined` raises, and then it is a runtime `TypeError`.
`updateValue` raises no `EmptyDocumentError`: on a falsy document
(including the unloaded `null` state) it silently returns the store
unchanged (second conjunct); and when the parent path resolves to
`undefined` the subsequent assignment raises a `TypeError` *after* the
history snapshot has already been pushed (third conjunct, concrete). -/
theorem c4_theorem :
    (∀ (st : JsonStore) (p : List Seg) (fs : List (String × JsonValue))
        (k : String), getAt st p = .ok (some (.obj fs)) →
        hasKey fs k = false → k ∉ objProtoKeys →
        getAt st (p ++ [.key k]) = .ok none) ∧
    (∀ (st : JsonStore) (p : List Seg) (v : String),
        isFalsy st.data = true → updateValue st p v = .ok st) ∧
    (updateValue exStore [.key "zz", .key "w"] "1"
      = .err .typeError ⟨exDoc, [], [exDoc], 0⟩) := by
  refine ⟨?_, ?_, rfl⟩
  · intro st p fs k hres hk _hproto
    unfold getAt at hres ⊢
    rw [getAtGo_snoc _ _ _ _ hres]
    simp [jsGet, segKeyStr, hasKey_false_lookup fs k hk]
  · intro st p v hf
    simp [updateValue, hf]

/-- **C4** (counterexample): on `{"a":1,"b":2}`, `getAt(["zz"])`
completes with JS `undefined` instead of failing with
`PathResolutionError`, and `updateValue` on an unloaded store returns
silently instead of failing with `EmptyDocumentError`. -/
theorem c4_counterexample :
    getAt exStore [.key "zz"] = .ok none ∧
    updateValue (mkStore .null) [.key "a"] "1" = .ok (mkStore .null) :=
  ⟨rfl, rfl⟩

/-- **C4** (witness): the two universally quantified conjuncts of the
amended claim evaluated on `exStore`. -/
theorem c4_witness :
    getAt exStore ([] ++ [.key "zz"]) = .ok none ∧
    updateValue (mkStore (.num 0)) [.key "a"] "1" = .ok (mkStore (.num 0)) :=
  ⟨c4_theorem.1 exStore [] [("a", .num 1), ("b", .num 2)] "zz" rfl rfl
     (by decide),
   c4_theorem.2.1 (mkStore (.num 0)) [.key "a"] "1" rfl⟩

/-! ## C6 — the raw-input coercion priority order -/

/-- **C6**: `updateValue` and `addNode` normalize raw text by the same
function (the source duplicates the block verbatim), and that function
follows the spec's five-step priority order exactly (`coercionSpec` is
§4.1.1 written out: quote-wrapped strings first, then `true`/`false`,
then `null`, then numbers, else the literal string). The three concrete
obligations of P7 are evaluated through the store: `'"42"'` stores the
string `"42"`, `'42'` stores the number `42`, `'true'` stores boolean
`true`. JS numbers are modelled on their exact-integer fragment. -/
theorem c6_theorem :
    (∀ s : String, normalizeUpdate s = normalizeAdd s) ∧
    (∀ s : String, normalizeUpdate s = coercionSpec s) ∧
    updateValue exStore [.key "a"] "\"42\""
      = .ok ⟨.obj [("a", .str "42"), ("b", .num 2)], [], [exDoc], 1⟩ ∧
    updateValue exStore [.key "a"] "42"
      = .ok ⟨.obj [("a", .num 42), ("b", .num 2)], [], [exDoc], 1⟩ ∧
    updateValue exStore [.key "a"] "true"
      = .ok ⟨.obj [("a", .bool true), ("b", .num 2)], [], [exDoc], 1⟩ := by
  refine ⟨fun s => rfl, fun s => ?_, rfl, rfl, rfl⟩
  unfold normalizeUpdate coercionSpec
  simp only []
  split_ifs <;> first | rfl | tauto

/-! ## C5 — renameKey: errors and order preservation -/

lemma writeBack_some (v0 : JsonValue) (seg : Seg) (c : JsonValue) :
    ∃ w, writeBack (some v0) seg c = some w := by
  cases v0 with
  | arr xs =>
      cases seg with
      | idx n =>
          simp only [writeBack]
          split <;> exact ⟨_, rfl⟩
      | key s =>
          simp only [writeBack]
          split
          · split <;> exact ⟨_, rfl⟩
          · exact ⟨_, rfl⟩
  | obj fs => exact ⟨_, rfl⟩
  | str s => exact ⟨_, rfl⟩
  | num n => exact ⟨_, rfl⟩
  | bool b => exact ⟨_, rfl⟩
  | null => exact ⟨_, rfl⟩

lemma setPath_isSome (t : Option JsonValue) (p : List Seg) (v : JsonValue)
    (c : Option JsonValue) (h : getAtGo t p = .ok c) :
    ∃ w, setPath t p v = some w := by
  induction p generalizing t with
  | nil => exact ⟨v, rfl⟩
  | cons seg rest ih =>
      cases hg : jsGet t seg with
      | error e =>
          simp only [getAtGo, hg] at h
          exact absurd h (by simp)
      | ok c1 =>
          simp only [getAtGo, hg] at h
          obtain ⟨w, hw⟩ := ih c1 h
          cases t with
          | none => exact absurd hg (by simp [jsGet])
          | some v0 =>
              obtain ⟨w2, hw2⟩ := writeBack_some v0 seg w
              exact ⟨w2, by simp only [setPath, hg, hw]; exact hw2⟩

lemma modifyAt_resolved (t : Option JsonValue) (p : List Seg)
    (f : Option JsonValue → Except JsErr (Option JsonValue))
    (c : Option JsonValue) (h : getAtGo t p = .ok c) :
    modifyAt t p f =
      match f c with
      | .error e => .error e
      | .ok none => .ok none
      | .ok (some v) => .ok (setPath t p v) := by
  induction p generalizing t with
  | nil =>
      have ht : t = c := by injection h
      subst ht
      cases hf : f t with
      | error e => simp [modifyAt, hf]
      | ok r =>
          cases r with
          | none => simp [modifyAt, hf]
          | some v => simp [modifyAt, setPath, hf]
  | cons seg rest ih =>
      cases hg : jsGet t seg with
      | error e =>
          simp only [getAtGo, hg] at h
          exact absurd h (by simp)
      | ok c1 =>
          simp only [getAtGo, hg] at h
          have hrec := ih c1 h
          cases hf : f c with
          | error e => simp [modifyAt, hg, hrec, hf]
          | ok r =>
              cases r with
              | none => simp [modifyAt, hg, hrec, hf]
              | some v =>
                  obtain ⟨w, hw⟩ := setPath_isSome c1 rest v c h
                  simp [modifyAt, setPath, hg, hrec, hf, hw]

lemma objSet_append_new (fs : List (String × JsonValue)) (k : String)
    (v : JsonValue) (hk : hasKey fs k = false) (hc : canonIdx? k = none)
    (hp : k ≠ "__proto__") :
    objSet fs k v = fs ++ [(k, v)] := by
  simp [objSet, hk, hc, hp]

lemma hasKey_nil (k : String) : hasKey [] k = false := rfl

lemma hasKey_append_single (a : List (String × JsonValue)) (k0 : String)
    (v0 : JsonValue) (k : String) :
    hasKey (a ++ [(k0, v0)]) k = (hasKey a k || k0 == k) := by
  induction a with
  | nil =>
      by_cases h : k0 = k <;> simp [hasKey, lookupStr, h]
  | cons kv rest ih =>
      obtain ⟨k1, v1⟩ := kv
      by_cases h : k1 = k <;> simp [hasKey, lookupStr, h] at ih ⊢ <;>
        exact ih

lemma hasKey_false_mem (fs : List (String × JsonValue)) (k : String)
    (h : hasKey fs k = false) : ∀ kv ∈ fs, kv.1 ≠ k := by
  induction fs with
  | nil => simp
  | cons kv0 rest ih =>
      obtain ⟨k0, v0⟩ := kv0
      by_cases hk : k0 = k
      · exact absurd h (by simp [hasKey, lookupStr, hk])
      · intro kv hkv
        rcases List.mem_cons.mp hkv with h1 | h1
        · subst h1; exact hk
        · exact ih (by simpa [hasKey, lookupStr, hk] using h) kv h1

/-- Modelled from the claim: the order-preserving rename — the renamed
key sits exactly where the old key sat, every other entry untouched. -/
def renameSpec (fs : List (String × JsonValue)) (oldKey newKey : String) :
    List (String × JsonValue) :=
  fs.map (fun kv => if kv.1 = oldKey then (newKey, kv.2) else kv)

lemma rebuild_aux (oldKey newKey : String) (fs : List (String × JsonValue)) :
    ∀ acc : List (String × JsonValue),
    (∀ kv ∈ fs, canonIdx? kv.1 = none) →
    canonIdx? newKey = none →
    (∀ kv ∈ fs, kv.1 ≠ "__proto__") →
    newKey ≠ "__proto__" →
    (∀ kv ∈ fs, hasKey acc (if kv.1 = oldKey then newKey else kv.1) = false) →
    (∀ kv1 ∈ fs, ∀ kv2 ∈ fs,
        (if kv1.1 = oldKey then newKey else kv1.1)
          = (if kv2.1 = oldKey then newKey else kv2.1) → kv1.1 = kv2.1) →
    (fs.map Prod.fst).Nodup →
    fs.foldl
      (fun acc kv =>
        if segStrEq kv.1 (some (.key oldKey)) then objSet acc newKey kv.2
        else objSet acc kv.1 kv.2) acc
      = acc ++ renameSpec fs oldKey newKey := by
  induction fs with
  | nil => intro acc _ _ _ _ _ _ _; simp [renameSpec]
  | cons kv0 rest ih =>
      intro acc hcanon hcn hproto hnp hfresh hinj hnodup
      obtain ⟨k0, v0⟩ := kv0
      have hstep :
          (if segStrEq k0 (some (.key oldKey)) then objSet acc newKey v0
           else objSet acc k0 v0)
            = acc ++ [(if k0 = oldKey then newKey else k0, v0)] := by
        by_cases hk : k0 = oldKey
        · have : segStrEq k0 (some (.key oldKey)) = true := by
            simp [segStrEq, hk]
          rw [if_pos this, objSet_append_new acc newKey v0
            (by simpa [hk] using hfresh (k0, v0) (by simp)) hcn hnp]
          simp [hk]
        · have : ¬ segStrEq k0 (some (.key oldKey)) = true := by
            simp [segStrEq, hk]
          rw [if_neg this, objSet_append_new acc k0 v0
            (by simpa [hk] using hfresh (k0, v0) (by simp))
            (by simpa using hcanon (k0, v0) (by simp))
            (by simpa using hproto (k0, v0) (by simp))]
          simp [hk]
      rw [List.foldl_cons, hstep]
      rw [ih (acc ++ [(if k0 = oldKey then newKey else k0, v0)])
        (fun kv hkv => hcanon kv (List.mem_cons_of_mem _ hkv)) hcn
        (fun kv hkv => hproto kv (List.mem_cons_of_mem _ hkv)) hnp
        ?hfresh
        (fun kv1 h1 kv2 h2 => hinj kv1 (List.mem_cons_of_mem _ h1) kv2
          (List.mem_cons_of_mem _ h2))
        (by simpa using (List.nodup_cons.mp (by simpa using hnodup)).2)]
      · by_cases hk : k0 = oldKey <;> simp [renameSpec, hk]
      case hfresh =>
        intro kv hkv
        rw [hasKey_append_single]
        have h1 : hasKey acc (if kv.1 = oldKey then newKey else kv.1) = false :=
          hfresh kv (List.mem_cons_of_mem _ hkv)
        have h2 : k0 ≠ kv.1 := by
          intro heq
          have : kv.1 ∈ rest.map Prod.fst := List.mem_map_of_mem _ hkv
          rw [← heq] at this
          exact (List.nodup_cons.mp (by simpa using hnodup)).1 this
        have h3 : (if k0 = oldKey then newKey else k0)
            ≠ (if kv.1 = oldKey then newKey else kv.1) := by
          intro heq
          exact h2 (hinj (k0, v0) (by simp) kv (List.mem_cons_of_mem _ hkv) heq)
        simp [h1, h3]

lemma rebuildRename_eq_renameSpec (fs : List (String × JsonValue))
    (oldKey newKey : String)
    (hcanon : ∀ kv ∈ fs, canonIdx? kv.1 = none)
    (hcn : canonIdx? newKey = none)
    (hproto : ∀ kv ∈ fs, kv.1 ≠ "__proto__")
    (hnp : newKey ≠ "__proto__")
    (hnodup : (fs.map Prod.fst).Nodup)
    (hok : hasKey fs newKey = false ∨ newKey = oldKey) :
    rebuildRename fs (some (.key oldKey)) newKey
      = renameSpec fs oldKey newKey := by
  have hinj : ∀ kv1 ∈ fs, ∀ kv2 ∈ fs,
      (if kv1.1 = oldKey then newKey else kv1.1)
        = (if kv2.1 = oldKey then newKey else kv2.1) → kv1.1 = kv2.1 := by
    rcases hok with hnk | heq
    · intro kv1 h1 kv2 h2 heq
      have hm1 := hasKey_false_mem fs newKey hnk kv1 h1
      have hm2 := hasKey_false_mem fs newKey hnk kv2 h2
      by_cases ha : kv1.1 = oldKey <;> by_cases hb : kv2.1 = oldKey
      · rw [ha, hb]
      · rw [if_pos ha, if_neg hb] at heq
        exact absurd heq.symm hm2
      · rw [if_neg ha, if_pos hb] at heq
        exact absurd heq hm1
      · rwa [if_neg ha, if_neg hb] at heq
    · subst heq
      intro kv1 _ kv2 _ heq
      by_cases ha : kv1.1 = newKey <;> by_cases hb : kv2.1 = newKey
      · rw [ha, hb]
      · rw [if_pos ha, if_neg hb] at heq
        rw [ha, heq]
      · rw [if_neg ha, if_pos hb] at heq
        rw [hb, ← heq]
      · rwa [if_neg ha, if_neg hb] at heq
  have h := rebuild_aux oldKey newKey fs []
    hcanon hcn hproto hnp (fun kv _ => hasKey_nil _) hinj hnodup
  simpa [rebuildRename] using h

/-- **C5**: for a parent that resolves to an array, `renameKey` throws
the invalid-operation error (first conjunct); for an object parent that
does not shadow `hasOwnProperty` it throws the duplicate-key error
**iff** `newKey` already exists as a different key of that parent
(second conjunct); on success the parent object is rewritten to
`renameSpec` — the renamed key occupies exactly the position the old
key occupied and the relative order of all other keys is unchanged
(third conjunct; the key-shape hypotheses keep the keys out of JS's
integer-like class, whose members the engine reorders first, and away
from the inherited `__proto__` setter, whose assignment creates no
member); and a parent that **does** own a `"hasOwnProperty"` member
makes the guard call the shadowed non-callable value, raising
`TypeError` (fourth conjunct). The history push of the failing cases is
the pre-validation push established under C1. -/
theorem c5_theorem :
    (∀ (st : JsonStore) (path : List Seg) (newKey : String)
        (xs : List JsonValue),
        isFalsy st.data = false →
        getAtGo (some st.data) path.dropLast = .ok (some (.arr xs)) →
        renameKey st path newKey
          = .err (.error "Cannot rename array index") (pushHistory st)) ∧
    (∀ (st : JsonStore) (path : List Seg) (oldKey newKey : String)
        (fs : List (String × JsonValue)),
        isFalsy st.data = false →
        getAtGo (some st.data) path.dropLast = .ok (some (.obj fs)) →
        path.getLast? = some (.key oldKey) →
        hasKey fs "hasOwnProperty" = false →
        (renameKey st path newKey
            = .err (.error "Key already exists") (pushHistory st)
          ↔ (hasKey fs newKey = true ∧ newKey ≠ oldKey))) ∧
    (∀ (st : JsonStore) (path : List Seg) (oldKey newKey : String)
        (fs : List (String × JsonValue)),
        isFalsy st.data = false →
        getAtGo (some st.data) path.dropLast = .ok (some (.obj fs)) →
        path.getLast? = some (.key oldKey) →
        hasKey fs "hasOwnProperty" = false →
        (∀ kv ∈ fs, canonIdx? kv.1 = none) →
        canonIdx? newKey = none →
        (∀ kv ∈ fs, kv.1 ≠ "__proto__") →
        newKey ≠ "__proto__" →
        (fs.map Prod.fst).Nodup →
        (hasKey fs newKey = false ∨ newKey = oldKey) →
        ∃ d', setPath (some st.data) path.dropLast
                (.obj (renameSpec fs oldKey newKey)) = some d' ∧
          renameKey st path newKey
            = .ok { pushHistory st with
                     data := d'
                     notifyCount := (pushHistory st).notifyCount + 1 }) ∧
    (∀ (st : JsonStore) (path : List Seg) (newKey : String)
        (fs : List (String × JsonValue)),
        isFalsy st.data = false →
        getAtGo (some st.data) path.dropLast = .ok (some (.obj fs)) →
        hasKey fs "hasOwnProperty" = true →
        renameKey st path newKey = .err .typeError (pushHistory st)) := by
  refine ⟨?_, ?_, ?_, ?_⟩
  · intro st path newKey xs hf hres
    have hres' : getAtGo (some (pushHistory st).data) path.dropLast
        = .ok (some (.arr xs)) := by rw [pushHistory_data]; exact hres
    have hmod := modifyAt_resolved _ _ (renameF path.getLast? newKey) _ hres'
    simp only [renameF] at hmod
    simp [renameKey, hf, hmod]
  · intro st path oldKey newKey fs hf hres hlast hsh
    have hres' : getAtGo (some (pushHistory st).data) path.dropLast
        = .ok (some (.obj fs)) := by rw [pushHistory_data]; exact hres
    have hmod := modifyAt_resolved _ _ (renameF path.getLast? newKey) _ hres'
    by_cases hc : hasKey fs newKey = true ∧
        ¬ segStrEq newKey (path.getLast?) = true
    · have hren : renameF path.getLast? newKey (some (.obj fs))
          = .error (.error "Key already exists") := by
        rw [hlast]
        simp only [renameF]
        rw [if_neg (by simp [hsh]), if_pos (by rw [← hlast]; exact hc)]
      have hmod2 : modifyAt (some (pushHistory st).data) path.dropLast
          (renameF path.getLast? newKey)
            = .error (.error "Key already exists") := by
        rw [hmod, hren]
      constructor
      · intro _
        refine ⟨hc.1, ?_⟩
        have := hc.2
        rw [hlast] at this
        simpa [segStrEq] using this
      · intro _
        simp [renameKey, hf, hmod2]
    · have hren : renameF path.getLast? newKey (some (.obj fs))
          = .ok (some (.obj (rebuildRename fs path.getLast? newKey))) := by
        simp only [renameF]
        rw [if_neg (by simp [hsh]), if_neg hc]
      have hmod2 : modifyAt (some (pushHistory st).data) path.dropLast
          (renameF path.getLast? newKey)
            = .ok (setPath (some (pushHistory st).data) path.dropLast
                (.obj (rebuildRename fs path.getLast? newKey))) := by
        rw [hmod, hren]
      obtain ⟨d', hd'⟩ := setPath_isSome (some (pushHistory st).data)
        path.dropLast (.obj (rebuildRename fs path.getLast? newKey)) _ hres'
      have hcomp : renameKey st path newKey
          = .ok { pushHistory st with
                   data := d'
                   notifyCount := (pushHistory st).notifyCount + 1 } := by
        simp [renameKey, hf, hmod2, hd']
      constructor
      · intro hcontra
        rw [hcomp] at hcontra
        exact absurd hcontra (by simp)
      · intro ⟨h1, h2⟩
        exact absurd ⟨h1, by rw [hlast]; simpa [segStrEq] using h2⟩ hc
  · intro st path oldKey newKey fs hf hres hlast hsh hcanon hcn hproto hnp
      hnodup hok
    have hres' : getAtGo (some (pushHistory st).data) path.dropLast
        = .ok (some (.obj fs)) := by rw [pushHistory_data]; exact hres
    have hmod := modifyAt_resolved _ _ (renameF path.getLast? newKey) _ hres'
    have hcond : ¬ (hasKey fs newKey = true ∧
        ¬ segStrEq newKey (some (.key oldKey)) = true) := by
      rcases hok with h1 | h1
      · intro hcontra
        rw [h1] at hcontra
        exact absurd hcontra.1 (by simp)
      · intro hcontra
        exact hcontra.2 (by simp [segStrEq, h1])
    have hren : renameF path.getLast? newKey (some (.obj fs))
        = .ok (some (.obj (renameSpec fs oldKey newKey))) := by
      rw [hlast]
      simp only [renameF]
      rw [if_neg (by simp [hsh]), if_neg hcond,
        rebuildRename_eq_renameSpec fs oldKey newKey hcanon hcn hproto hnp
          hnodup hok]
    have hmod2 : modifyAt (some (pushHistory st).data) path.dropLast
        (renameF path.getLast? newKey)
          = .ok (setPath (some (pushHistory st).data) path.dropLast
              (.obj (renameSpec fs oldKey newKey))) := by
      rw [hmod, hren]
    obtain ⟨d', hd'⟩ := setPath_isSome (some (pushHistory st).data)
      path.dropLast (.obj (renameSpec fs oldKey newKey)) _ hres'
    refine ⟨d', ?_, ?_⟩
    · rw [pushHistory_data] at hd'
      exact hd'
    · simp [renameKey, hf, hmod2, hd']
  · intro st path newKey fs hf hres hsh
    have hres' : getAtGo (some (pushHistory st).data) path.dropLast
        = .ok (some (.obj fs)) := by rw [pushHistory_data]; exact hres
    have hmod := modifyAt_resolved _ _ (renameF path.getLast? newKey) _ hres'
    have hren : renameF path.getLast? newKey (some (.obj fs))
        = .error .typeError := by
      simp only [renameF]
      rw [if_pos (by simp [hsh])]
    have hmod2 : modifyAt (some (pushHistory st).data) path.dropLast
        (renameF path.getLast? newKey) = .error .typeError := by
      rw [hmod, hren]
    simp [renameKey, hf, hmod2]

/-- **C5** (witness): the four conjuncts instantiated concretely on
small stores: renaming inside the array `[10]` throws the
invalid-operation error; on `{"a":1,"b":2}` the duplicate-key error iff
characterization and the order-preserving success shape are evaluated
at `newKey = "b"` and `newKey = "z"`; and `{"hasOwnProperty":1}`
shadows the guard's method, raising `TypeError`. -/
theorem c5_witness :
    renameKey (mkStore (.arr [.num 10])) [.idx 0] "z"
      = .err (.error "Cannot rename array index")
          (pushHistory (mkStore (.arr [.num 10]))) ∧
    (renameKey exStore [.key "a"] "b"
        = .err (.error "Key already exists") (pushHistory exStore)
      ↔ (hasKey [("a", .num 1), ("b", .num 2)] "b" = true ∧ "b" ≠ "a")) ∧
    (∃ d', setPath (some exStore.data) ([.key "a"] : List Seg).dropLast
            (.obj (renameSpec [("a", .num 1), ("b", .num 2)] "a" "z"))
            = some d' ∧
      renameKey exStore [.key "a"] "z"
        = .ok { pushHistory exStore with
                 data := d'
                 notifyCount := (pushHistory exStore).notifyCount + 1 }) ∧
    renameKey (mkStore (.obj [("hasOwnProperty", .num 1)])) [.key "a"] "z"
      = .err .typeError (pushHistory (mkStore (.obj [("hasOwnProperty", .num 1)]))) :=
  ⟨c5_theorem.1 (mkStore (.arr [.num 10])) [.idx 0] "z" [.num 10] rfl rfl,
   c5_theorem.2.1 exStore [.key "a"] "a" "b" [("a", .num 1), ("b", .num 2)]
     rfl rfl rfl rfl,
   c5_theorem.2.2.1 exStore [.key "a"] "a" "z" [("a", .num 1), ("b", .num 2)]
     rfl rfl rfl rfl (by decide) (by decide) (by decide) (by decide)
     (by decide) (Or.inl rfl),
   c5_theorem.2.2.2 (mkStore (.obj [("hasOwnProperty", .num 1)])) [.key "a"]
     "z" [("hasOwnProperty", .num 1)] rfl rfl rfl⟩

/-- **C5** (counterexample): rename is order-preserving only outside
JS's integer-like property names. Renaming `"b"` to `"0"` in
`{"a":1,"b":2}` puts the renamed key **first** — JS objects keep
integer-like keys ahead of all string keys — not at the old key's
position (`renameSpec` would put it second), so the claim's
order-preservation clause fails as universally stated. -/
theorem c5_counterexample :
    renameKey exStore [.key "b"] "0"
      = .ok ⟨.obj [("0", .num 2), ("a", .num 1)], [], [exDoc], 1⟩ ∧
    renameSpec [("a", .num 1), ("b", .num 2)] "b" "0"
      = [("a", .num 1), ("0", .num 2)] ∧
    ([("0", JsonValue.num 2), ("a", .num 1)].map Prod.fst
      ≠ [("a", JsonValue.num 1), ("0", .num 2)].map Prod.fst) :=
  ⟨rfl, rfl, by decide⟩
